import Mathlib

/-!
Verification development for the pdf2docx converter repository.

The definitions below are shallow embeddings, translated from
`src/modern_pdf2docx_converter.py` (and its duplicate
`src/converters/modern_pdf2docx_converter.py`) and
`src/advanced_pdf2docx_converter.py`:

* the Spacing Repair Engine `_fix_text_spacing` (five `re.sub` passes),
  modelled character-exactly on `List Char`;
* the Layout Reconstructor `_group_text_into_paragraphs` (anchor-based
  vertical clustering with `y_threshold = 5`);
* the Image Fitter inside `_add_image_to_document` (72 px/unit conversion,
  `min(widthScale, heightScale, 1.0)` scaling), modelled over `ℚ`;
* the page-break emission loop of `create_docx_document` and the top-level
  `convert_pdf_to_docx` entry points of the modern and advanced converters,
  with the fallible I/O steps modelled as explicit `Option`/`Except` inputs.
-/

namespace Pdf2Docx

/- ## Character classes of the regular expressions in `_fix_text_spacing`

The Python patterns use the ASCII classes `[a-z]`, `[A-Z]`, `[.!?]`, `\d`
(digits) and `\s` (whitespace).  We model them as Bool-valued predicates on
`Char`; `\d` and `\s` are modelled by their ASCII members, which is exact on
the ASCII inputs the converter's heuristics target. -/

/-- `[a-z]` of the Python regexes. -/
def isLowerAZ (c : Char) : Bool := 97 ≤ c.toNat && c.toNat ≤ 122

/-- `[A-Z]` of the Python regexes. -/
def isUpperAZ (c : Char) : Bool := 65 ≤ c.toNat && c.toNat ≤ 90

/-- `[.!?]` of the second `re.sub` pattern. -/
def isTerminalPunct (c : Char) : Bool := c = '.' || c = '!' || c = '?'

/-- `\d` of the fourth `re.sub` pattern. -/
def isDigit09 (c : Char) : Bool := 48 ≤ c.toNat && c.toNat ≤ 57

/-- `\s` of the fifth `re.sub` pattern (ASCII whitespace). -/
def isWs (c : Char) : Bool :=
  c = ' ' || c = '\t' || c = '\n' || c = '\r' || c = '\x0b' || c = '\x0c'

/- ## `re.sub(r'(P)(Q)', r'\1 \2', text)` for single-character groups

`re.sub` scans left to right and replaces non-overlapping matches, resuming
after each match.  For a two-character pattern this is the following
recursion: at each position, if the next two characters match `(p, q)`, emit
them with a space inserted and resume after both; otherwise emit one
character and continue. -/

/-- One `re.sub` pass of shape `(P)(Q) -> \1 \2` for character classes
`p`, `q` — the shape of passes (1), (2) and (4) of `_fix_text_spacing`. -/
def pairSub (p q : Char → Bool) : List Char → List Char
  | [] => []
  | [a] => [a]
  | a :: b :: rest =>
    if p a && q b then a :: ' ' :: b :: pairSub p q rest
    else a :: pairSub p q (b :: rest)

/-- Pass (1): `re.sub(r'([a-z])([A-Z])', r'\1 \2', text)`. -/
def subLowerUpper (s : List Char) : List Char := pairSub isLowerAZ isUpperAZ s

/-- Pass (2): `re.sub(r'([.!?])([A-Z])', r'\1 \2', text)`. -/
def subPunctUpper (s : List Char) : List Char := pairSub isTerminalPunct isUpperAZ s

/-- Pass (4): `re.sub(r'([a-z])(\d)', r'\1 \2', text)`. -/
def subLowerDigit (s : List Char) : List Char := pairSub isLowerAZ isDigit09 s

/- ## Pass (3): the glued-short-word substitution

`re.sub(r'([a-z])(of|and|the|in|on|at|by|for|with|to)([A-Z])', r'\1 \2 \3', text)`.
The alternation is tried left to right with backtracking: an alternative
matches only if the literal word is followed by an uppercase letter.  No word
in the list is a prefix of another, so at most one alternative can match at a
given position. -/

/-- The closed word list of pass (3), in the alternation's order. -/
def gluedWords : List (List Char) :=
  ["of".data, "and".data, "the".data, "in".data, "on".data, "at".data,
   "by".data, "for".data, "with".data, "to".data]

/-- `dropWord w s = some r` iff `s = w ++ r` (matching the literal `w`). -/
def dropWord : List Char → List Char → Option (List Char)
  | [], s => some s
  | _ :: _, [] => none
  | a :: w, b :: s => if a = b then dropWord w s else none

/-- Try the alternatives in order: return the first word `w` such that `s`
starts with `w` followed by an uppercase letter, with that letter and the
remaining input. -/
def tryGlued : List (List Char) → List Char → Option (List Char × Char × List Char)
  | [], _ => none
  | w :: ws, s =>
    match dropWord w s with
    | some (u :: r) => if isUpperAZ u then some (w, u, r) else tryGlued ws s
    | _ => tryGlued ws s

/-- `dropWord` succeeds exactly on strings starting with the literal word. -/
theorem dropWord_eq_append {w s r : List Char} (h : dropWord w s = some r) :
    s = w ++ r := by
  induction w generalizing s with
  | nil => simpa [dropWord] using h
  | cons a w ih =>
    cases s with
    | nil => simp [dropWord] at h
    | cons b s =>
      by_cases hab : a = b
      · subst hab
        simp only [dropWord, if_pos rfl] at h
        simpa using ih h
      · simp [dropWord, hab] at h

/-- What a successful `tryGlued` tells us about its input. -/
theorem tryGlued_eq_append {ws : List (List Char)} {s w : List Char} {u : Char}
    {r : List Char} (h : tryGlued ws s = some (w, u, r)) :
    w ∈ ws ∧ s = w ++ u :: r ∧ isUpperAZ u = true := by
  induction ws with
  | nil => simp [tryGlued] at h
  | cons a as ih =>
    rw [tryGlued] at h
    rcases hd : dropWord a s with _ | r'
    · rw [hd] at h
      rcases ih h with ⟨hmem, hs, hu⟩
      exact ⟨List.mem_cons_of_mem _ hmem, hs, hu⟩
    · rw [hd] at h
      cases r' with
      | nil =>
        rcases ih h with ⟨hmem, hs, hu⟩
        exact ⟨List.mem_cons_of_mem _ hmem, hs, hu⟩
      | cons u' r'' =>
        cases hup : isUpperAZ u' with
        | true =>
          simp only [hup, if_pos] at h
          obtain ⟨rfl, rfl, rfl⟩ : a = w ∧ u' = u ∧ r'' = r := by
            cases h; exact ⟨rfl, rfl, rfl⟩
          exact ⟨List.mem_cons_self _ _, dropWord_eq_append hd, hup⟩
        | false =>
          simp only [hup, if_neg, Bool.false_eq_true, not_false_iff] at h
          rcases ih h with ⟨hmem, hs, hu⟩
          exact ⟨List.mem_cons_of_mem _ hmem, hs, hu⟩

/-- A successful `tryGlued` strictly shrinks the remaining input. -/
theorem tryGlued_length {ws : List (List Char)} {s w : List Char} {u : Char}
    {r : List Char} (h : tryGlued ws s = some (w, u, r)) :
    r.length < s.length := by
  rcases tryGlued_eq_append h with ⟨-, hs, -⟩
  subst hs
  simp only [List.length_append, List.length_cons]
  omega

/-- Pass (3) with explicit fuel, so that the recursion (which descends to the
remainder `r` returned by `tryGlued`, not to a structural subterm) is
structural and kernel-reducible.  `subGlued` runs it with fuel
`s.length`, which `tryGlued_length` shows is always sufficient. -/
def subGluedF : Nat → List Char → List Char
  | _, [] => []
  | 0, s => s
  | fuel + 1, c :: rest =>
    if isLowerAZ c then
      match tryGlued gluedWords rest with
      | some (w, u, r) => c :: ' ' :: (w ++ ' ' :: u :: subGluedF fuel r)
      | none => c :: subGluedF fuel rest
    else c :: subGluedF fuel rest

/-- Pass (3): the glued-short-word `re.sub`. -/
def subGlued (s : List Char) : List Char := subGluedF s.length s

/-- The fuel argument of `subGluedF` is irrelevant once it covers the input
length. -/
theorem subGluedF_congr : ∀ {m n : Nat} {s : List Char},
    s.length ≤ m → s.length ≤ n → subGluedF m s = subGluedF n s := by
  intro m
  induction m using Nat.strong_induction_on with
  | _ m ih =>
    intro n s hm hn
    cases s with
    | nil => cases m <;> cases n <;> rfl
    | cons c rest =>
      cases m with
      | zero => simp at hm
      | succ m =>
        cases n with
        | zero => simp at hn
        | succ n =>
          simp only [List.length_cons, Nat.succ_le_succ_iff] at hm hn
          simp only [subGluedF]
          rcases hg : tryGlued gluedWords rest with _ | ⟨w, u, r⟩ <;>
            simp only [hg]
          · have e2 : subGluedF m rest = subGluedF n rest :=
              ih m (Nat.lt_succ_self m) hm hn
            rw [e2]
          · have hr := tryGlued_length hg
            have e1 : subGluedF m r = subGluedF n r :=
              ih m (Nat.lt_succ_self m) (by omega) (by omega)
            have e2 : subGluedF m rest = subGluedF n rest :=
              ih m (Nat.lt_succ_self m) hm hn
            rw [e1, e2]

/-- Unfolding equation for `subGlued` on a nonempty input. -/
theorem subGlued_cons (c : Char) (rest : List Char) :
    subGlued (c :: rest) =
      if isLowerAZ c then
        match tryGlued gluedWords rest with
        | some (w, u, r) => c :: ' ' :: (w ++ ' ' :: u :: subGlued r)
        | none => c :: subGlued rest
      else c :: subGlued rest := by
  show subGluedF (rest.length + 1) (c :: rest) = _
  simp only [subGluedF, subGlued]
  rcases hg : tryGlued gluedWords rest with _ | ⟨w, u, r⟩ <;>
    simp only [hg]
  have hr := tryGlued_length hg
  have e1 : subGluedF rest.length r = subGluedF r.length r :=
    subGluedF_congr (by omega) le_rfl
  rw [e1]

/- ## Pass (5): whitespace collapse

`re.sub(r'\s+', ' ', text)` replaces every maximal run of whitespace by a
single space.  Equivalently, scanning left to right with a flag recording
whether the previous character was whitespace: a whitespace character is
emitted as `' '` if the flag is clear and dropped otherwise. -/

/-- Scanner for `re.sub(r'\s+', ' ', text)`; `inWs` records whether the
previous character belonged to a whitespace run. -/
def collapseWsAux (inWs : Bool) : List Char → List Char
  | [] => []
  | c :: rest =>
    if isWs c then
      if inWs then collapseWsAux true rest
      else ' ' :: collapseWsAux true rest
    else c :: collapseWsAux false rest

/-- Pass (5): `re.sub(r'\s+', ' ', text)`. -/
def collapseWs (s : List Char) : List Char := collapseWsAux false s

/- ## The Spacing Repair Engine

`_fix_text_spacing` applies the five passes in source order.  (The source
also increments a run-scoped `spacing_fixes_applied` counter whenever the
output differs from the input; the counter is reporting-only and does not
affect the returned string, so it is not part of the embedding.) -/

/-- `_fix_text_spacing` of `src/modern_pdf2docx_converter.py` (lines
445–468) and of its duplicate in `src/converters/`, on `List Char`. -/
def fix_text_spacing (s : List Char) : List Char :=
  collapseWs (subLowerDigit (subGlued (subPunctUpper (subLowerUpper s))))

/-- `_fix_text_spacing` with the third `re.sub` (the glued-short-word pass)
deleted, the rest unchanged. -/
def fix_text_spacing_no_glued (s : List Char) : List Char :=
  collapseWs (subLowerDigit (subPunctUpper (subLowerUpper s)))

/- ## Properties of the single passes

`noPairs p q l` says no character satisfying `p` is immediately followed by
one satisfying `q` — i.e. the pattern `(P)(Q)` has no match left in `l`. -/

/-- The pattern `(P)(Q)` has no occurrence in `l`. -/
def noPairs (p q : Char → Bool) (l : List Char) : Prop :=
  List.Chain' (fun a b => (p a && q b) = false) l

theorem and_eq_false_left {a b : Bool} (h : a = false) : (a && b) = false := by
  rw [h, Bool.false_and]

theorem and_eq_false_right {a b : Bool} (h : b = false) : (a && b) = false := by
  rw [h, Bool.and_false]

/-- `pairSub` preserves the first character of the string. -/
theorem pairSub_head (p q : Char → Bool) :
    ∀ l : List Char, (pairSub p q l).head? = l.head?
  | [] => rfl
  | [_] => rfl
  | a :: b :: rest => by
    by_cases h : (p a && q b) = true
    · simp [pairSub, h]
    · simp [pairSub, h]

/-- After a `pairSub p q` pass no `(P)(Q)` occurrence remains, provided the
classes are disjoint and do not contain the inserted space. -/
theorem pairSub_noPairs (p q : Char → Bool)
    (hdisj : ∀ c, q c = true → p c = false)
    (hps : p ' ' = false) (hqs : q ' ' = false) :
    ∀ l : List Char, noPairs p q (pairSub p q l)
  | [] => List.chain'_nil
  | [a] => List.chain'_singleton a
  | a :: b :: rest => by
    by_cases h : (p a && q b) = true
    · have hqb : q b = true := (Bool.and_eq_true _ _).mp h |>.2
      have hpb : p b = false := hdisj b hqb
      simp only [pairSub, if_pos h]
      refine List.chain'_cons.mpr ⟨and_eq_false_right hqs, ?_⟩
      refine List.chain'_cons.mpr ⟨and_eq_false_left hps, ?_⟩
      refine List.chain'_cons'.mpr ⟨fun y _ => and_eq_false_left hpb, ?_⟩
      exact pairSub_noPairs p q hdisj hps hqs rest
    · simp only [pairSub, if_neg h]
      refine List.chain'_cons'.mpr ⟨fun y hy => ?_, ?_⟩
      · rw [pairSub_head p q (b :: rest)] at hy
        cases hy
        exact Bool.eq_false_iff.mpr h
      · exact pairSub_noPairs p q hdisj hps hqs (b :: rest)

/-- On a string with no `(P)(Q)` occurrence, a `pairSub p q` pass is the
identity. -/
theorem pairSub_id (p q : Char → Bool) :
    ∀ l : List Char, noPairs p q l → pairSub p q l = l
  | [], _ => rfl
  | [_], _ => rfl
  | a :: b :: rest, h => by
    have hab : (p a && q b) = false := (List.chain'_cons.mp h).1
    simp only [pairSub, hab, Bool.false_eq_true, if_false]
    rw [pairSub_id p q (b :: rest) (List.chain'_cons.mp h).2]

/-- A `pairSub p q` pass cannot create a `(U)(V)` occurrence, provided
neither class contains the inserted space. -/
theorem pairSub_pres (p q u v : Char → Bool)
    (hus : u ' ' = false) (hvs : v ' ' = false) :
    ∀ l : List Char, noPairs u v l → noPairs u v (pairSub p q l)
  | [], _ => List.chain'_nil
  | [a], _ => List.chain'_singleton a
  | a :: b :: rest, h => by
    obtain ⟨hab, htail⟩ := List.chain'_cons.mp h
    by_cases hm : (p a && q b) = true
    · simp only [pairSub, if_pos hm]
      refine List.chain'_cons.mpr ⟨and_eq_false_right hvs, ?_⟩
      refine List.chain'_cons.mpr ⟨and_eq_false_left hus, ?_⟩
      refine List.chain'_cons'.mpr ⟨fun y hy => ?_, ?_⟩
      · rw [pairSub_head p q rest] at hy
        exact (List.chain'_cons'.mp htail).1 y hy
      · exact pairSub_pres p q u v hus hvs rest (List.Chain'.tail htail)
    · simp only [pairSub, if_neg hm]
      refine List.chain'_cons'.mpr ⟨fun y hy => ?_, ?_⟩
      · rw [pairSub_head p q (b :: rest)] at hy
        cases hy
        exact hab
      · exact pairSub_pres p q u v hus hvs (b :: rest) htail

/- ## Pass (3) never matches on a string without lower→upper boundaries -/

/-- Every word of the alternation is nonempty and all-lowercase. -/
theorem gluedWords_lower : ∀ w ∈ gluedWords, w ≠ [] ∧ ∀ a ∈ w, isLowerAZ a = true := by
  decide

/-- A glued-short-word match contains a lowercase→uppercase boundary: the
word's last letter is lowercase and is immediately followed by the uppercase
letter.  So no such match exists in a string with `noPairs isLowerAZ
isUpperAZ`. -/
theorem no_lower_upper_no_glue {u : Char} (hu : isUpperAZ u = true) :
    ∀ (w : List Char), w ≠ [] → (∀ a ∈ w, isLowerAZ a = true) →
      ∀ r : List Char, noPairs isLowerAZ isUpperAZ (w ++ u :: r) → False
  | [], hne, _, _, _ => hne rfl
  | [a], _, hlow, r, hch => by
    have : (isLowerAZ a && isUpperAZ u) = false := (List.chain'_cons.mp hch).1
    rw [hlow a (by simp), hu] at this
    simp at this
  | a :: b :: w, _, hlow, r, hch => by
    refine no_lower_upper_no_glue hu (b :: w) (by simp) ?_ r ?_
    · intro x hx
      exact hlow x (List.mem_cons_of_mem a hx)
    · exact (List.chain'_cons.mp hch).2

/-- On a string with no lowercase→uppercase boundary, pass (3) is the
identity: the glued-short-word pattern never matches. -/
theorem subGlued_id : ∀ l : List Char, noPairs isLowerAZ isUpperAZ l → subGlued l = l
  | [], _ => rfl
  | c :: rest, h => by
    rw [subGlued_cons]
    have htail : noPairs isLowerAZ isUpperAZ rest := List.Chain'.tail h
    by_cases hc : isLowerAZ c = true
    · simp only [hc, if_pos]
      rcases hg : tryGlued gluedWords rest with _ | ⟨w, u, r⟩
      · rw [subGlued_id rest htail]
      · obtain ⟨hmem, hrest, hu⟩ := tryGlued_eq_append hg
        obtain ⟨hne, hlow⟩ := gluedWords_lower w hmem
        rw [hrest] at htail
        exact absurd htail (fun hch => no_lower_upper_no_glue hu w hne hlow r hch)
    · simp only [hc, if_neg, Bool.false_eq_true, not_false_iff]
      rw [subGlued_id rest htail]
termination_by l => l.length
decreasing_by
  · simp only [List.length_cons]; omega
  · simp only [List.length_cons]; omega

/- ## Properties of the whitespace collapse -/

/-- First character of a collapse that is not inside a whitespace run. -/
theorem collapseWsAux_false_head (c : Char) (r : List Char) :
    (collapseWsAux false (c :: r)).head? = some (if isWs c then ' ' else c) := by
  by_cases h : isWs c = true
  · simp [collapseWsAux, h]
  · simp only [Bool.not_eq_true] at h
    simp [collapseWsAux, h]

/-- Inside a whitespace run, the next emitted character is not whitespace. -/
theorem collapseWsAux_true_head :
    ∀ l : List Char, ∀ y ∈ (collapseWsAux true l).head?, isWs y = false
  | [] => by intro y hy; simp [collapseWsAux] at hy
  | c :: r => by
    intro y hy
    by_cases h : isWs c = true
    · rw [show collapseWsAux true (c :: r) = collapseWsAux true r by
        simp [collapseWsAux, h]] at hy
      exact collapseWsAux_true_head r y hy
    · simp only [Bool.not_eq_true] at h
      simp only [collapseWsAux, h, Bool.false_eq_true, if_false] at hy
      cases hy
      exact h

/-- The collapse cannot create a `(U)(V)` occurrence, provided neither class
contains the space character. -/
theorem collapseWsAux_pres (u v : Char → Bool)
    (hus : u ' ' = false) (hvs : v ' ' = false) :
    ∀ (b : Bool) (l : List Char), List.Chain' (fun a c => (u a && v c) = false) l →
      List.Chain' (fun a c => (u a && v c) = false) (collapseWsAux b l)
  | b, [], _ => List.chain'_nil
  | b, c :: r, h => by
    have htail := List.Chain'.tail h
    by_cases hc : isWs c = true
    · cases b with
      | true =>
        rw [show collapseWsAux true (c :: r) = collapseWsAux true r by
          simp [collapseWsAux, hc]]
        exact collapseWsAux_pres u v hus hvs true r htail
      | false =>
        rw [show collapseWsAux false (c :: r) = ' ' :: collapseWsAux true r by
          simp [collapseWsAux, hc]]
        refine List.chain'_cons'.mpr ⟨fun y _ => and_eq_false_left hus, ?_⟩
        exact collapseWsAux_pres u v hus hvs true r htail
    · simp only [Bool.not_eq_true] at hc
      rw [show collapseWsAux b (c :: r) = c :: collapseWsAux false r by
        simp [collapseWsAux, hc]]
      refine List.chain'_cons'.mpr ⟨fun y hy => ?_, ?_⟩
      · cases r with
        | nil => simp [collapseWsAux] at hy
        | cons d r' =>
          rw [collapseWsAux_false_head d r'] at hy
          cases hy
          by_cases hd : isWs d = true
          · simp only [hd, if_pos]
            exact and_eq_false_right hvs
          · simp only [Bool.not_eq_true] at hd
            simp only [hd, Bool.false_eq_true, if_false]
            exact (List.chain'_cons.mp h).1
      · exact collapseWsAux_pres u v hus hvs false r htail

/-- After the collapse, every whitespace character is a single `' '`. -/
theorem collapseWsAux_all_sp :
    ∀ (b : Bool) (l : List Char) (c : Char), c ∈ collapseWsAux b l →
      isWs c = true → c = ' '
  | b, [], c, hc, _ => by simp [collapseWsAux] at hc
  | b, d :: r, c, hc, hws => by
    by_cases hd : isWs d = true
    · cases b with
      | true =>
        rw [show collapseWsAux true (d :: r) = collapseWsAux true r by
          simp [collapseWsAux, hd]] at hc
        exact collapseWsAux_all_sp true r c hc hws
      | false =>
        rw [show collapseWsAux false (d :: r) = ' ' :: collapseWsAux true r by
          simp [collapseWsAux, hd]] at hc
        rcases List.mem_cons.mp hc with rfl | hc'
        · rfl
        · exact collapseWsAux_all_sp true r c hc' hws
    · simp only [Bool.not_eq_true] at hd
      rw [show collapseWsAux b (d :: r) = d :: collapseWsAux false r by
        simp [collapseWsAux, hd]] at hc
      rcases List.mem_cons.mp hc with rfl | hc'
      · rw [hws] at hd
        cases hd
      · exact collapseWsAux_all_sp false r c hc' hws

/-- After the collapse, no two adjacent whitespace characters remain. -/
theorem collapseWsAux_no_ws_ws :
    ∀ (b : Bool) (l : List Char),
      List.Chain' (fun a c => (isWs a && isWs c) = false) (collapseWsAux b l)
  | b, [] => List.chain'_nil
  | b, c :: r => by
    by_cases hc : isWs c = true
    · cases b with
      | true =>
        rw [show collapseWsAux true (c :: r) = collapseWsAux true r by
          simp [collapseWsAux, hc]]
        exact collapseWsAux_no_ws_ws true r
      | false =>
        rw [show collapseWsAux false (c :: r) = ' ' :: collapseWsAux true r by
          simp [collapseWsAux, hc]]
        refine List.chain'_cons'.mpr ⟨fun y hy => ?_, collapseWsAux_no_ws_ws true r⟩
        exact and_eq_false_right (collapseWsAux_true_head r y hy)
    · simp only [Bool.not_eq_true] at hc
      rw [show collapseWsAux b (c :: r) = c :: collapseWsAux false r by
        simp [collapseWsAux, hc]]
      refine List.chain'_cons'.mpr ⟨fun y _ => and_eq_false_left hc, ?_⟩
      exact collapseWsAux_no_ws_ws false r

/-- Once the first character is known not to be whitespace, the run flag is
irrelevant. -/
theorem collapseWsAux_true_eq_false (l : List Char)
    (h : ∀ y ∈ l.head?, isWs y = false) :
    collapseWsAux true l = collapseWsAux false l := by
  cases l with
  | nil => rfl
  | cons c r =>
    have hc : isWs c = false := h c rfl
    simp [collapseWsAux, hc]

/-- On a string whose whitespace is already single spaces, the collapse is
the identity. -/
theorem collapseWs_id : ∀ l : List Char,
    (∀ c ∈ l, isWs c = true → c = ' ') →
    List.Chain' (fun a c => (isWs a && isWs c) = false) l →
    collapseWsAux false l = l
  | [], _, _ => rfl
  | c :: r, hall, hch => by
    have htail : collapseWsAux false r = r :=
      collapseWs_id r (fun x hx => hall x (List.mem_cons_of_mem c hx))
        (List.Chain'.tail hch)
    by_cases hc : isWs c = true
    · have hsp : c = ' ' := hall c (List.mem_cons_self c r) hc
      rw [show collapseWsAux false (c :: r) = ' ' :: collapseWsAux true r by
        simp [collapseWsAux, hc]]
      rw [collapseWsAux_true_eq_false r ?_, htail, hsp]
      intro y hy
      have hd : (isWs c && isWs y) = false := (List.chain'_cons'.mp hch).1 y hy
      rw [hc, Bool.true_and] at hd
      exact hd
    · simp only [Bool.not_eq_true] at hc
      rw [show collapseWsAux false (c :: r) = c :: collapseWsAux false r by
        simp [collapseWsAux, hc]]
      rw [htail]

/- ## Character-class facts -/

theorem upper_not_lower : ∀ c, isUpperAZ c = true → isLowerAZ c = false := by
  intro c h
  simp only [isUpperAZ, Bool.and_eq_true, decide_eq_true_eq] at h
  rw [Bool.eq_false_iff]
  intro h'
  simp only [isLowerAZ, Bool.and_eq_true, decide_eq_true_eq] at h'
  omega

theorem upper_not_punct : ∀ c, isUpperAZ c = true → isTerminalPunct c = false := by
  intro c h
  rw [Bool.eq_false_iff]
  intro h'
  simp only [isTerminalPunct, Bool.or_eq_true, decide_eq_true_eq] at h'
  rcases h' with (rfl | rfl) | rfl <;> exact absurd h (by decide)

theorem digit_not_lower : ∀ c, isDigit09 c = true → isLowerAZ c = false := by
  intro c h
  simp only [isDigit09, Bool.and_eq_true, decide_eq_true_eq] at h
  rw [Bool.eq_false_iff]
  intro h'
  simp only [isLowerAZ, Bool.and_eq_true, decide_eq_true_eq] at h'
  omega

/- ## Invariants of the fully repaired string -/

/-- After pass (1), later passes never recreate a lower→upper boundary, so
pass (3) — which needs one inside any match — never fires.  In particular the
string handed to pass (3) has none. -/
theorem subGlued_skipped (s : List Char) :
    subGlued (subPunctUpper (subLowerUpper s)) = subPunctUpper (subLowerUpper s) :=
  subGlued_id _ (pairSub_pres isTerminalPunct isUpperAZ isLowerAZ isUpperAZ
    (by decide) (by decide) _
    (pairSub_noPairs isLowerAZ isUpperAZ upper_not_lower (by decide) (by decide) s))

/-- The repaired string has no lower→upper boundary left. -/
theorem fix_noLU (s : List Char) :
    noPairs isLowerAZ isUpperAZ (fix_text_spacing s) := by
  unfold fix_text_spacing
  rw [subGlued_skipped]
  exact collapseWsAux_pres isLowerAZ isUpperAZ (by decide) (by decide) false _
    (pairSub_pres isLowerAZ isDigit09 isLowerAZ isUpperAZ (by decide) (by decide) _
      (pairSub_pres isTerminalPunct isUpperAZ isLowerAZ isUpperAZ (by decide) (by decide) _
        (pairSub_noPairs isLowerAZ isUpperAZ upper_not_lower (by decide) (by decide) s)))

/-- The repaired string has no terminal-punctuation→upper boundary left. -/
theorem fix_noPU (s : List Char) :
    noPairs isTerminalPunct isUpperAZ (fix_text_spacing s) := by
  unfold fix_text_spacing
  rw [subGlued_skipped]
  exact collapseWsAux_pres isTerminalPunct isUpperAZ (by decide) (by decide) false _
    (pairSub_pres isLowerAZ isDigit09 isTerminalPunct isUpperAZ (by decide) (by decide) _
      (pairSub_noPairs isTerminalPunct isUpperAZ upper_not_punct (by decide) (by decide) _))

/-- The repaired string has no lower→digit boundary left. -/
theorem fix_noLD (s : List Char) :
    noPairs isLowerAZ isDigit09 (fix_text_spacing s) := by
  unfold fix_text_spacing
  exact collapseWsAux_pres isLowerAZ isDigit09 (by decide) (by decide) false _
    (pairSub_noPairs isLowerAZ isDigit09 digit_not_lower (by decide) (by decide) _)

/-- Every whitespace character of the repaired string is `' '`. -/
theorem fix_all_sp (s : List Char) :
    ∀ c ∈ fix_text_spacing s, isWs c = true → c = ' ' := by
  intro c hc hw
  exact collapseWsAux_all_sp false _ c hc hw

/-- The repaired string has no two adjacent whitespace characters. -/
theorem fix_no_ws_ws (s : List Char) :
    List.Chain' (fun a c => (isWs a && isWs c) = false) (fix_text_spacing s) :=
  collapseWsAux_no_ws_ws false _

/- ## The Layout Reconstructor: `_group_text_into_paragraphs`

A text block is the dict built by the `text_visitor` in
`_extract_text_with_layout`; coordinates are modelled over `ℚ`.  The
`matrix` entry duplicates `(x, y)` and the converter never reads it back,
so it is not repeated here. -/

/-- One extracted text fragment (`text_block` dict of
`_extract_text_with_layout`). -/
structure TextBlock where
  text : String
  x : ℚ
  y : ℚ
  font_name : String
  font_size : ℚ
deriving DecidableEq, Repr

/-- One `current_paragraph` dict of `_group_text_into_paragraphs`;
`y_position` starts as `None` (the `font_info` entry stays `{}` throughout
and is omitted). -/
structure Paragraph where
  text_parts : List TextBlock
  y_position : Option ℚ
deriving DecidableEq, Repr

/-- The loop body of `_group_text_into_paragraphs` (lines 366–383): state is
`(paragraphs, current_paragraph)`; `y_threshold = 5`. -/
def paraStep (st : List Paragraph × Paragraph) (block : TextBlock) :
    List Paragraph × Paragraph :=
  let paragraphs := st.1
  let current := st.2
  match current.y_position with
  | none =>
    (paragraphs, { current with y_position := some block.y,
                                text_parts := current.text_parts ++ [block] })
  | some y0 =>
    if |block.y - y0| ≤ 5 then
      (paragraphs, { current with text_parts := current.text_parts ++ [block] })
    else
      ((if current.text_parts ≠ [] then paragraphs ++ [current] else paragraphs),
       { text_parts := [block], y_position := some block.y })

/-- `_group_text_into_paragraphs` of `src/modern_pdf2docx_converter.py`
(lines 351–389). -/
def group_text_into_paragraphs (text_blocks : List TextBlock) : List Paragraph :=
  if text_blocks.isEmpty then []
  else
    let st := text_blocks.foldl paraStep ([], { text_parts := [], y_position := none })
    if st.2.text_parts ≠ [] then st.1 ++ [st.2] else st.1

/-- Reference clustering, written from the spec's words (§4.2 step 2): a
current cluster anchored at the `y` of its first fragment; a fragment joins
iff `|fragment.y − anchor| ≤ 5`, compared always against the anchor;
otherwise the cluster is emitted and a new one opens at this fragment; the
final non-empty cluster is emitted at end of input.  Each emitted cluster is
the pair (anchor, members). -/
def clusterRefGo (anchor : ℚ) (acc : List TextBlock) :
    List TextBlock → List (ℚ × List TextBlock)
  | [] => [(anchor, acc)]
  | b :: rest =>
    if |b.y - anchor| ≤ 5 then clusterRefGo anchor (acc ++ [b]) rest
    else (anchor, acc) :: clusterRefGo b.y [b] rest

/-- Reference paragraph grouping (spec §4.2): empty input gives no
clusters. -/
def clusterRef : List TextBlock → List (ℚ × List TextBlock)
  | [] => []
  | b :: rest => clusterRefGo b.y [b] rest

/- ## The Image Fitter inside `_add_image_to_document` (lines 551–569)

`Inches` is a unit wrapper in the source; the arithmetic is plain real
division and multiplication, modelled over `ℚ`. -/

/-- The size computation of `_add_image_to_document`: native pixels are
converted at 72 px/inch, then scaled by
`min(width_scale, height_scale, 1.0)`. -/
def add_image_fit (max_width_inches max_height_inches : ℚ)
    (original_width original_height : ℚ) : ℚ × ℚ :=
  let original_width_inches := original_width / 72
  let original_height_inches := original_height / 72
  let width_scale := max_width_inches / original_width_inches
  let height_scale := max_height_inches / original_height_inches
  let scale := min (min width_scale height_scale) 1
  (original_width_inches * scale, original_height_inches * scale)

/-- Division as Python performs it: dividing by zero raises
`ZeroDivisionError` (modelled as `none`). -/
def pyDiv (a b : ℚ) : Option ℚ := if b = 0 then none else some (a / b)

/-- The image-size fallback of `_extract_images_from_page` (lines 216–222):
when PIL cannot decode the image, native size `100×100` is substituted. -/
def extract_image_size (decoded : Option (ℕ × ℕ)) : ℕ × ℕ :=
  decoded.getD (100, 100)

/-- The whole of `_add_image_to_document` (lines 540–582) as far as sizing
is observable: the body runs inside `try/except`, so a `ZeroDivisionError`
in either scale division makes the image be skipped (`none`); otherwise the
image is placed at the computed size (`some`). -/
def add_image_to_document (max_width_inches max_height_inches : ℚ)
    (wh : ℕ × ℕ) : Option (ℚ × ℚ) :=
  let original_width_inches : ℚ := (wh.1 : ℚ) / 72
  let original_height_inches : ℚ := (wh.2 : ℚ) / 72
  match pyDiv max_width_inches original_width_inches,
        pyDiv max_height_inches original_height_inches with
  | some width_scale, some height_scale =>
    let scale := min (min width_scale height_scale) 1
    some (original_width_inches * scale, original_height_inches * scale)
  | _, _ => none

/- ## Page assembly and the top-level entry points -/

/-- One `page_content` dict of `_extract_page_content`: page number, text
blocks, and extracted images (kept as native pixel sizes).  Python's `!=`
on these dicts is structural equality, matching `DecidableEq`. -/
structure PageContent where
  page_number : ℕ
  text_blocks : List TextBlock
  images : List (ℕ × ℕ)
deriving DecidableEq, Repr

/-- The page-break emission of `create_docx_document` (lines 262–268): after
processing each page, a break is added iff the page compares `!=` (by value)
to `extracted_content['pages'][-1]`.  Returns the per-page break flags; on
an empty list the loop body never runs. -/
def create_docx_page_breaks (pages : List PageContent) : List Bool :=
  match pages.getLast? with
  | none => []
  | some last => pages.map (fun p => decide ¬(p = last))

/-- The result dict of the top-level converters. -/
structure ConvResult where
  status : String
  error : Option String
deriving DecidableEq, Repr

/-- `convert_pdf_to_docx` of `src/modern_pdf2docx_converter.py` (lines
584–650), with its fallible collaborators as explicit inputs: `extracted` is
`None` when `extract_pdf_content` returned `{}`; `save` is the outcome of
`document.save(output_path)` together with the resulting output-file state
`(exists, size)` on success.  The whole body is wrapped in `try/except`, so
an exception becomes an error record.  Note: the modern converter never
inspects the output file after saving. -/
def modern_convert_pdf_to_docx (extracted : Option (List PageContent))
    (save : Except String (Bool × ℕ)) : ConvResult :=
  match extracted with
  | none => ⟨"error", some "Failed to extract PDF content"⟩
  | some _ =>
    match save with
    | .error e => ⟨"error", some e⟩
    | .ok _ => ⟨"success", none⟩

/-- `convert_pdf_to_docx` of `src/advanced_pdf2docx_converter.py` (lines
352–374): after saving it checks `os.path.exists(output_path)` and
`os.path.getsize(output_path) > 0` before reporting success. -/
def advanced_convert_pdf_to_docx (extracted : Option (List PageContent))
    (save : Except String (Bool × ℕ)) : ConvResult :=
  match extracted with
  | none => ⟨"error", some "failed to open PDF"⟩
  | some _ =>
    match save with
    | .error e => ⟨"error", some e⟩
    | .ok (ex, size) =>
      if ex ∧ 0 < size then ⟨"success", none⟩
      else ⟨"error", some "Output file was not created or is empty"⟩

/- ## The grouping loop agrees with the reference clustering -/

/-- The grouping loop, started on a non-empty current cluster, emits exactly
the reference clusters (as `Paragraph` records carrying the cluster anchor). -/
theorem group_go : ∀ (rest : List TextBlock) (paras : List Paragraph)
    (anchor : ℚ) (acc : List TextBlock), acc ≠ [] →
    (if (rest.foldl paraStep (paras, ⟨acc, some anchor⟩)).2.text_parts ≠ [] then
      (rest.foldl paraStep (paras, ⟨acc, some anchor⟩)).1 ++
        [(rest.foldl paraStep (paras, ⟨acc, some anchor⟩)).2]
    else (rest.foldl paraStep (paras, ⟨acc, some anchor⟩)).1)
    = paras ++ (clusterRefGo anchor acc rest).map
        (fun ac => { text_parts := ac.2, y_position := some ac.1 })
  | [], paras, anchor, acc, hacc => by
    simp only [List.foldl_nil, clusterRefGo, List.map_cons, List.map_nil]
    rw [if_pos hacc]
  | b :: rest, paras, anchor, acc, hacc => by
    simp only [List.foldl_cons]
    by_cases hy : |b.y - anchor| ≤ 5
    · have hstep : paraStep (paras, ⟨acc, some anchor⟩) b =
          (paras, ⟨acc ++ [b], some anchor⟩) := by
        simp [paraStep, hy]
      have hrec := group_go rest paras anchor (acc ++ [b]) (by simp)
      rw [hstep, hrec]
      simp only [clusterRefGo, if_pos hy]
    · have hstep : paraStep (paras, ⟨acc, some anchor⟩) b =
          (paras ++ [⟨acc, some anchor⟩], ⟨[b], some b.y⟩) := by
        simp [paraStep, hy, hacc]
      have hrec := group_go rest
        (paras ++ [{ text_parts := acc, y_position := some anchor }]) b.y [b]
        (by simp)
      rw [hstep, hrec]
      simp only [clusterRefGo, if_neg hy, List.map_cons, List.append_assoc,
        List.singleton_append]

/-- `_group_text_into_paragraphs` emits exactly the reference clusters. -/
theorem group_eq_clusterRef (blocks : List TextBlock) :
    group_text_into_paragraphs blocks = (clusterRef blocks).map
      (fun ac => { text_parts := ac.2, y_position := some ac.1 }) := by
  cases blocks with
  | nil => rfl
  | cons b rest =>
    have hne : (b :: rest).isEmpty = false := rfl
    simp only [group_text_into_paragraphs, hne, Bool.false_eq_true, if_false,
      List.foldl_cons, clusterRef]
    have hstep : paraStep ([], ⟨[], none⟩) b = ([], ⟨[b], some b.y⟩) := by
      simp [paraStep]
    rw [hstep]
    exact group_go rest [] b.y [b] (by simp)

/-- The first anchor emitted by the reference clustering is the current
anchor. -/
theorem clusterRefGo_fst_head : ∀ (rest : List TextBlock) (anchor : ℚ)
    (acc : List TextBlock),
    ((clusterRefGo anchor acc rest).map Prod.fst).head? = some anchor
  | [], _, _ => rfl
  | b :: rest, anchor, acc => by
    by_cases hy : |b.y - anchor| ≤ 5
    · simp only [clusterRefGo, if_pos hy]
      exact clusterRefGo_fst_head rest anchor (acc ++ [b])
    · simp only [clusterRefGo, if_neg hy, List.map_cons, List.head?_cons]

/-- If every remaining fragment lies at or below the anchor (`y` no larger)
and the remaining fragments descend pairwise, the emitted anchors strictly
decrease. -/
theorem clusterRefGo_anchors_desc : ∀ (rest : List TextBlock) (anchor : ℚ)
    (acc : List TextBlock),
    (∀ c ∈ rest, c.y ≤ anchor) →
    List.Pairwise (fun a b : TextBlock => b.y ≤ a.y) rest →
    List.Chain' (fun a b : ℚ => b < a) ((clusterRefGo anchor acc rest).map Prod.fst)
  | [], anchor, acc, _, _ => by
    simp only [clusterRefGo, List.map_cons, List.map_nil]
    exact List.chain'_singleton anchor
  | b :: rest, anchor, acc, hle, hpw => by
    obtain ⟨hb, ptail⟩ := List.pairwise_cons.mp hpw
    by_cases hy : |b.y - anchor| ≤ 5
    · simp only [clusterRefGo, if_pos hy]
      exact clusterRefGo_anchors_desc rest anchor (acc ++ [b])
        (fun c hc => le_trans (hb c hc) (hle b (List.mem_cons_self b rest))) ptail
    · simp only [clusterRefGo, if_neg hy, List.map_cons]
      refine List.chain'_cons'.mpr ⟨fun y hyy => ?_, ?_⟩
      · rw [clusterRefGo_fst_head rest b.y [b]] at hyy
        cases hyy
        have h1 : b.y ≤ anchor := hle b (List.mem_cons_self b rest)
        have h2 : b.y ≠ anchor := by
          intro e
          rw [e] at hy
          simp at hy
        exact lt_of_le_of_ne h1 h2
      · exact clusterRefGo_anchors_desc rest b.y [b] hb ptail

/- # The claims -/

/-- C1: for every list of text fragments, the Layout Reconstructor's
paragraph grouping equals the reference clustering: a current cluster
anchored at the `y` of the cluster's first fragment; a fragment is appended
iff `|fragment.y − anchor| ≤ 5`, always compared against the anchor; else
the cluster is emitted and a new one opens anchored at this fragment; end of
input emits the final non-empty cluster; the empty fragment list yields the
empty paragraph list, not an error.  (Stated for all inputs, so in
particular for those sorted into reading order.) -/
theorem claim_C1_grouping_matches_reference :
    (∀ blocks : List TextBlock,
      group_text_into_paragraphs blocks = (clusterRef blocks).map
        (fun ac => { text_parts := ac.2, y_position := some ac.1 })) ∧
    group_text_into_paragraphs [] = [] :=
  ⟨group_eq_clusterRef, rfl⟩

/-- C2: the Spacing Repair Engine is idempotent:
`repair (repair s) = repair s` for every string `s`. -/
theorem claim_C2_spacing_repair_idempotent (s : List Char) :
    fix_text_spacing (fix_text_spacing s) = fix_text_spacing s := by
  have h1 : subLowerUpper (fix_text_spacing s) = fix_text_spacing s :=
    pairSub_id isLowerAZ isUpperAZ _ (fix_noLU s)
  have h2 : subPunctUpper (fix_text_spacing s) = fix_text_spacing s :=
    pairSub_id isTerminalPunct isUpperAZ _ (fix_noPU s)
  have h3 : subGlued (fix_text_spacing s) = fix_text_spacing s :=
    subGlued_id _ (fix_noLU s)
  have h4 : subLowerDigit (fix_text_spacing s) = fix_text_spacing s :=
    pairSub_id isLowerAZ isDigit09 _ (fix_noLD s)
  have h5 : collapseWs (fix_text_spacing s) = fix_text_spacing s :=
    collapseWs_id _ (fix_all_sp s) (fix_no_ws_ws s)
  calc fix_text_spacing (fix_text_spacing s)
      = collapseWs (subLowerDigit (subGlued (subPunctUpper
          (subLowerUpper (fix_text_spacing s))))) := rfl
    _ = fix_text_spacing s := by rw [h1, h2, h3, h4, h5]

/-- C3: the Spacing Repair Engine applies exactly the five corrections in
the fixed order (1) lower→upper, (2) terminal punctuation→upper, (3) glued
short word, (4) lower→digit, (5) whitespace collapse; and on the input
`"wordsOf theBook"` it produces exactly `"words Of the Book"`. -/
theorem claim_C3_five_passes_in_order :
    (∀ s : List Char, fix_text_spacing s =
      collapseWs (subLowerDigit (subGlued (subPunctUpper (subLowerUpper s))))) ∧
    fix_text_spacing "wordsOf theBook".data = "words Of the Book".data :=
  ⟨fun _ => rfl, by decide⟩

/-- C4: the Image Fitter converts native pixels at 72 px/unit, scales by
`min(widthScale, heightScale, 1.0)`, so the result never exceeds the
printable area; an image already fitting is returned unchanged; and a
720×960 px image in a 6×9 printable area yields exactly 6.0×8.0. -/
theorem claim_C4_image_fitter_fits (maxW maxH w h : ℚ)
    (hw : 0 < w) (hh : 0 < h) (hmw : 0 < maxW) (hmh : 0 < maxH) :
    (add_image_fit maxW maxH w h).1 ≤ maxW ∧
    (add_image_fit maxW maxH w h).2 ≤ maxH ∧
    (w / 72 ≤ maxW → h / 72 ≤ maxH →
      add_image_fit maxW maxH w h = (w / 72, h / 72)) ∧
    add_image_fit 6 9 720 960 = (6, 8) := by
  have hwIn : (0 : ℚ) < w / 72 := by positivity
  have hhIn : (0 : ℚ) < h / 72 := by positivity
  have hs1 : min (min (maxW / (w / 72)) (maxH / (h / 72))) 1 ≤ maxW / (w / 72) :=
    le_trans (min_le_left _ _) (min_le_left _ _)
  have hs2 : min (min (maxW / (w / 72)) (maxH / (h / 72))) 1 ≤ maxH / (h / 72) :=
    le_trans (min_le_left _ _) (min_le_right _ _)
  refine ⟨?_, ?_, ?_, ?_⟩
  · calc (w / 72) * min (min (maxW / (w / 72)) (maxH / (h / 72))) 1
        ≤ (w / 72) * (maxW / (w / 72)) :=
          mul_le_mul_of_nonneg_left hs1 (le_of_lt hwIn)
      _ = maxW := mul_div_cancel₀ maxW (ne_of_gt hwIn)
  · calc (h / 72) * min (min (maxW / (w / 72)) (maxH / (h / 72))) 1
        ≤ (h / 72) * (maxH / (h / 72)) :=
          mul_le_mul_of_nonneg_left hs2 (le_of_lt hhIn)
      _ = maxH := mul_div_cancel₀ maxH (ne_of_gt hhIn)
  · intro hfw hfh
    have h1 : (1 : ℚ) ≤ maxW / (w / 72) := (one_le_div hwIn).mpr hfw
    have h2 : (1 : ℚ) ≤ maxH / (h / 72) := (one_le_div hhIn).mpr hfh
    have hmin : min (min (maxW / (w / 72)) (maxH / (h / 72))) 1 = 1 :=
      min_eq_right (le_min h1 h2)
    simp only [add_image_fit, hmin, mul_one]
  · norm_num [add_image_fit, min_def]

/-- Witness for C4 at the spec's Scenario D input. -/
theorem claim_C4_image_fitter_fits_witness :
    (0 : ℚ) < 720 ∧ (0 : ℚ) < 960 ∧ (0 : ℚ) < 6 ∧ (0 : ℚ) < 9 ∧
    ((add_image_fit 6 9 720 960).1 ≤ 6 ∧
     (add_image_fit 6 9 720 960).2 ≤ 9 ∧
     ((720 : ℚ) / 72 ≤ 6 → (960 : ℚ) / 72 ≤ 9 →
       add_image_fit 6 9 720 960 = (720 / 72, 960 / 72)) ∧
     add_image_fit 6 9 720 960 = (6, 8)) :=
  ⟨by norm_num, by norm_num, by norm_num, by norm_num,
   claim_C4_image_fitter_fits 6 9 720 960 (by norm_num) (by norm_num)
     (by norm_num) (by norm_num)⟩

/-- C5: for all valid Image Fitter inputs the returned width/height ratio
equals the native ratio `nativeWidthInUnits / nativeHeightInUnits` — here
exactly, hence in particular within `1e-6` relative tolerance. -/
theorem claim_C5_aspect_ratio_preserved (maxW maxH w h : ℚ)
    (hw : 0 < w) (hh : 0 < h) (hmw : 0 < maxW) (hmh : 0 < maxH) :
    (add_image_fit maxW maxH w h).2 ≠ 0 ∧
    (add_image_fit maxW maxH w h).1 / (add_image_fit maxW maxH w h).2
      = (w / 72) / (h / 72) ∧
    |(add_image_fit maxW maxH w h).1 / (add_image_fit maxW maxH w h).2
      - (w / 72) / (h / 72)| ≤ 1 / 1000000 * |(w / 72) / (h / 72)| := by
  have hwIn : (0 : ℚ) < w / 72 := by positivity
  have hhIn : (0 : ℚ) < h / 72 := by positivity
  have hsc : (0 : ℚ) < min (min (maxW / (w / 72)) (maxH / (h / 72))) 1 :=
    lt_min (lt_min (div_pos hmw hwIn) (div_pos hmh hhIn)) one_pos
  have hratio : (add_image_fit maxW maxH w h).1 / (add_image_fit maxW maxH w h).2
      = (w / 72) / (h / 72) := by
    show (w / 72) * _ / ((h / 72) * _) = (w / 72) / (h / 72)
    exact mul_div_mul_right _ _ (ne_of_gt hsc)
  refine ⟨ne_of_gt (mul_pos hhIn hsc), hratio, ?_⟩
  rw [hratio, sub_self, abs_zero]
  positivity

/-- Witness for C5 at the spec's Scenario D input. -/
theorem claim_C5_aspect_ratio_preserved_witness :
    (0 : ℚ) < 720 ∧ (0 : ℚ) < 960 ∧ (0 : ℚ) < 6 ∧ (0 : ℚ) < 9 ∧
    ((add_image_fit 6 9 720 960).2 ≠ 0 ∧
     (add_image_fit 6 9 720 960).1 / (add_image_fit 6 9 720 960).2
       = ((720 : ℚ) / 72) / ((960 : ℚ) / 72) ∧
     |(add_image_fit 6 9 720 960).1 / (add_image_fit 6 9 720 960).2
       - ((720 : ℚ) / 72) / ((960 : ℚ) / 72)|
       ≤ 1 / 1000000 * |((720 : ℚ) / 72) / ((960 : ℚ) / 72)|) :=
  ⟨by norm_num, by norm_num, by norm_num, by norm_num,
   claim_C5_aspect_ratio_preserved 6 9 720 960 (by norm_num) (by norm_num)
     (by norm_num) (by norm_num)⟩

/-- C6: for fragments sorted by the step-1 key `(-y, x)` ascending
(top-to-bottom for the bottom-left-origin coordinates of the extractor,
equal `y` broken by ascending `x`), the emitted paragraphs' cluster anchors
are monotone in the sort direction: non-increasing in `y`. -/
theorem claim_C6_anchors_monotone (blocks : List TextBlock)
    (hsorted : List.Chain'
      (fun a b : TextBlock => b.y < a.y ∨ (b.y = a.y ∧ a.x ≤ b.x)) blocks) :
    List.Chain' (fun a b : ℚ => b ≤ a)
      ((group_text_into_paragraphs blocks).filterMap Paragraph.y_position) := by
  have hyle : List.Chain' (fun a b : TextBlock => b.y ≤ a.y) blocks :=
    List.Chain'.imp
      (fun a b hab => hab.elim le_of_lt (fun hh => le_of_eq hh.1)) hsorted
  rw [group_eq_clusterRef]
  have hfm : ∀ l : List (ℚ × List TextBlock),
      (l.map (fun ac => ({ text_parts := ac.2, y_position := some ac.1 } :
        Paragraph))).filterMap Paragraph.y_position = l.map Prod.fst := by
    intro l
    induction l with
    | nil => rfl
    | cons a l ih => simp [List.filterMap_cons, ih]
  rw [hfm]
  cases blocks with
  | nil => exact List.chain'_nil
  | cons b rest =>
    haveI : IsTrans TextBlock (fun a b : TextBlock => b.y ≤ a.y) :=
      ⟨fun _ _ _ h1 h2 => le_trans h2 h1⟩
    have hpw : List.Pairwise (fun a b : TextBlock => b.y ≤ a.y) (b :: rest) :=
      List.chain'_iff_pairwise.mp hyle
    obtain ⟨hb, ptail⟩ := List.pairwise_cons.mp hpw
    exact List.Chain'.imp (fun _ _ => le_of_lt)
      (clusterRefGo_anchors_desc rest b.y [b] hb ptail)

/-- Witness for C6 on a two-fragment page. -/
theorem claim_C6_anchors_monotone_witness :
    List.Chain' (fun a b : TextBlock => b.y < a.y ∨ (b.y = a.y ∧ a.x ≤ b.x))
      [⟨"A", 0, 100, "F", 12⟩, ⟨"B", 0, 90, "F", 12⟩] ∧
    List.Chain' (fun a b : ℚ => b ≤ a)
      ((group_text_into_paragraphs
        [⟨"A", 0, 100, "F", 12⟩, ⟨"B", 0, 90, "F", 12⟩]).filterMap
          Paragraph.y_position) := by
  have hs : List.Chain'
      (fun a b : TextBlock => b.y < a.y ∨ (b.y = a.y ∧ a.x ≤ b.x))
      [⟨"A", 0, 100, "F", 12⟩, ⟨"B", 0, 90, "F", 12⟩] :=
    List.chain'_cons.mpr ⟨Or.inl (by norm_num), List.chain'_singleton _⟩
  exact ⟨hs, claim_C6_anchors_monotone _ hs⟩

/-- C7 (evaluation at the failing input): when the same page content occurs
twice — e.g. `convert_pdf_to_docx(..., pages=[0, 0])`, which extracts two
identical page dicts — the assembler's `page_content != pages[-1]` test is
false for BOTH entries, so no page break at all is emitted between the two
consecutive processed pages, where the claim requires exactly one
(break flags `[true, false]`). -/
theorem claim_C7_page_break_eval :
    create_docx_page_breaks [⟨0, [], []⟩, ⟨0, [], []⟩] = [false, false] ∧
    ([false, false] : List Bool) ≠ [true, false] :=
  ⟨by decide, by decide⟩

/-- C8 (counterexample): the modern converter's `convert_pdf_to_docx`
reports `success` immediately after `document.save` returns, without
checking that the output file exists and is non-empty — here the saved
artifact has size 0 and the status is still `success`.  So "a success status
is reported only after confirming that the output artifact exists and is
non-empty" is false for this entry point. -/
theorem claim_C8_success_unverified :
    (modern_convert_pdf_to_docx (some []) (Except.ok (true, 0))).status
      = "success" ∧ ¬ (0 < (0 : ℕ)) :=
  ⟨rfl, by decide⟩

/-- C8 (amended): both entry points catch every failure and return a record
whose status is `success` or `error` (they never raise); the ADVANCED
converter reports success only when the saved output exists with non-zero
size; the modern converter performs no such verification (see the
counterexample). -/
theorem claim_C8_amended_status_contract :
    ∀ (extracted : Option (List PageContent)) (save : Except String (Bool × ℕ)),
      ((modern_convert_pdf_to_docx extracted save).status = "success" ∨
       (modern_convert_pdf_to_docx extracted save).status = "error") ∧
      ((advanced_convert_pdf_to_docx extracted save).status = "success" ∨
       (advanced_convert_pdf_to_docx extracted save).status = "error") ∧
      (∀ (ex : Bool) (size : ℕ), save = Except.ok (ex, size) →
        (advanced_convert_pdf_to_docx extracted save).status = "success" →
        ex = true ∧ 0 < size) := by
  intro extracted save
  refine ⟨?_, ?_, ?_⟩
  · rcases extracted with _ | c
    · exact Or.inr rfl
    · rcases save with e | st
      · exact Or.inr rfl
      · exact Or.inl rfl
  · rcases extracted with _ | c
    · exact Or.inr rfl
    · rcases save with e | ⟨ex, size⟩
      · exact Or.inr rfl
      · by_cases hc : ex = true ∧ 0 < size
        · left
          simp [advanced_convert_pdf_to_docx, hc]
        · right
          simp [advanced_convert_pdf_to_docx, hc]
  · rintro ex size rfl hsucc
    rcases extracted with _ | c
    · exact absurd hsucc (by simp [advanced_convert_pdf_to_docx])
    · by_cases hc : ex = true ∧ 0 < size
      · exact hc
      · exact absurd hsucc (by simp [advanced_convert_pdf_to_docx, hc])

/-- Witness for C8 (amended) at a concrete successful run. -/
theorem claim_C8_amended_status_contract_witness :
    ((Except.ok (true, 5) : Except String (Bool × ℕ)) = Except.ok (true, 5)) ∧
    (advanced_convert_pdf_to_docx (some []) (Except.ok (true, 5))).status
      = "success" ∧
    (true = true ∧ 0 < 5) := by
  refine ⟨rfl, by simp [advanced_convert_pdf_to_docx], ?_⟩
  exact (claim_C8_amended_status_contract (some []) (Except.ok (true, 5))).2.2
    true 5 rfl (by simp [advanced_convert_pdf_to_docx])

/-- C9 (counterexample): when the extractor reports a native width of 0
pixels, the Image Fitter's `width_scale = max_width_inches /
original_width_inches` IS a division by zero (a `ZeroDivisionError`, caught
by the surrounding handler, so the image is skipped rather than placed) —
no fallback size is substituted before scaling.  This refutes "computing the
image's target size never performs a division by zero". -/
theorem claim_C9_zero_width_divides_by_zero :
    add_image_to_document 6 9 (0, 100) = none := by
  norm_num [add_image_to_document, pyDiv]

/-- C9 (amended): the fixed fallback `100×100` is substituted only when
decoding the image fails entirely, and such an image is still placed (at an
approximate size); but when the decoder reports a zero width or height, the
size computation divides by zero and the image is skipped (`none`), not
placed. -/
theorem claim_C9_amended_fallback_and_zero (maxW maxH : ℚ) :
    extract_image_size none = (100, 100) ∧
    (add_image_to_document maxW maxH (extract_image_size none)).isSome = true ∧
    (∀ w h : ℕ, w = 0 ∨ h = 0 → add_image_to_document maxW maxH (w, h) = none) := by
  refine ⟨rfl, ?_, ?_⟩
  · have h1 : ((100 : ℕ) : ℚ) / 72 ≠ 0 := by norm_num
    simp [add_image_to_document, extract_image_size, pyDiv, h1]
  · rintro w h (rfl | rfl)
    · simp [add_image_to_document, pyDiv]
    · have : pyDiv maxH (((0 : ℕ) : ℚ) / 72) = none := by simp [pyDiv]
      rcases hw : pyDiv maxW (((w : ℕ) : ℚ) / 72) with _ | ws <;>
        simp [add_image_to_document, pyDiv, hw]

/-- Witness for C9 (amended) at a concrete zero-width image. -/
theorem claim_C9_amended_fallback_and_zero_witness :
    ((0 : ℕ) = 0 ∨ (7 : ℕ) = 0) ∧
    add_image_to_document 6 9 (0, 7) = none ∧
    extract_image_size none = (100, 100) :=
  ⟨Or.inl rfl,
   (claim_C9_amended_fallback_and_zero 6 9).2.2 0 7 (Or.inl rfl),
   (claim_C9_amended_fallback_and_zero 6 9).1⟩

/-- C10: the glued-short-word pass (3) never matches, because any of its
matches needs a lowercase letter immediately followed (after the word) by an
uppercase letter, and pass (1) has already separated every such boundary —
so the Spacing Repair Engine with pass (3) removed is extensionally equal to
the function as written. -/
theorem claim_C10_glued_pass_never_fires (s : List Char) :
    fix_text_spacing s = fix_text_spacing_no_glued s := by
  unfold fix_text_spacing fix_text_spacing_no_glued
  rw [subGlued_skipped]

end Pdf2Docx
